import Mathlib

/-!
Verification of the PesqEle scrape-and-reconcile pipeline.

This file gives a shallow embedding of the pure data-manipulation core of
`src/scraper_pesqele.py` and `src/PesqEle.py`: row de-duplication, Brazilian
date normalization, the merge ordering, header reconciliation, the
insert-new-rows-at-top reconciler, the per-region driver control flow, and
the batched insert retry logic.  Python strings are modelled as `List Char`,
a worksheet as a list of rows of cells, and the effectful spreadsheet/browser
APIs by explicit state passing and outcome oracles.
-/

namespace PesqEle

/-- Python strings are lists of characters. -/
abbrev Str := List Char

/-- Shorthand to write a `Str` from a string literal. -/
def str (s : String) : Str := s.data

/-- The characters stripped by Python's `str.strip()` and matched by the
regex class `\s` (restricted to the ASCII range, which is all that the
pipeline's data can contain). -/
def pyIsSpace (c : Char) : Bool :=
  c == ' ' || c == '\t' || c == '\n' || c == '\r' || c == '\x0b' || c == '\x0c'

/-- Python `str.strip()`: remove leading and trailing whitespace. -/
def pyStrip (s : Str) : Str :=
  ((s.dropWhile pyIsSpace).reverse.dropWhile pyIsSpace).reverse

/-- `parse_br_date_to_iso` (scraper_pesqele.py:472-478): after stripping,
match `^(\d{2})/(\d{2})/(\d{4})$` and rearrange to `YYYY-MM-DD`,
otherwise return the empty string. -/
def parse_br_date_to_iso (s : Str) : Str :=
  match pyStrip s with
  | [d1, d2, c1, m1, m2, c2, y1, y2, y3, y4] =>
    if c1 = '/' ∧ c2 = '/' ∧ [d1, d2, m1, m2, y1, y2, y3, y4].all Char.isDigit then
      [y1, y2, y3, y4, '-', m1, m2, '-', d1, d2]
    else []
  | _ => []

/-- `parse_br_datetime_to_iso` (scraper_pesqele.py:481-487): after stripping,
match `^(\d{2})/(\d{2})/(\d{4})\s+(\d{2}):(\d{2}):(\d{2})$` and rearrange to
`YYYY-MM-DD HH:MM:SS`, otherwise return the empty string.  The `\s+` run is
modelled by splitting the remainder at its leading whitespace. -/
def parse_br_datetime_to_iso (s : Str) : Str :=
  match pyStrip s with
  | d1 :: d2 :: c1 :: m1 :: m2 :: c2 :: y1 :: y2 :: y3 :: y4 :: rest =>
    if c1 = '/' ∧ c2 = '/' ∧ [d1, d2, m1, m2, y1, y2, y3, y4].all Char.isDigit then
      match rest.dropWhile pyIsSpace with
      | [h1, h2, e1, n1, n2, e2, s1, s2] =>
        if e1 = ':' ∧ e2 = ':' ∧ (rest.takeWhile pyIsSpace) ≠ [] ∧
            [h1, h2, n1, n2, s1, s2].all Char.isDigit then
          [y1, y2, y3, y4, '-', m1, m2, '-', d1, d2, ' ',
           h1, h2, ':', n1, n2, ':', s1, s2]
        else []
      | _ => []
    else []
  | _ => []

/-- `iso_date_sort_key` (scraper_pesqele.py:490-492): the stripped value if it
matches `^\d{4}-\d{2}-\d{2}$`, otherwise the empty string. -/
def iso_date_sort_key (x : Str) : Str :=
  match pyStrip x with
  | [y1, y2, y3, y4, c1, m1, m2, c2, d1, d2] =>
    if c1 = '-' ∧ c2 = '-' ∧ [y1, y2, y3, y4, m1, m2, d1, d2].all Char.isDigit then
      [y1, y2, y3, y4, c1, m1, m2, c2, d1, d2]
    else []
  | _ => []

/-- One scraped row record (the dict built in `parse_current_table_with_details`
plus the columns attached by `run_one_scope`); absent values are the empty
string, matching `fillna("")`. -/
structure RowRec where
  numero_identificacao : Str
  eleicao : Str
  empresa_contratada : Str
  data_registro : Str
  abrangencia : Str
  data_divulgacao : Str
  uf_filtro : Str
  capturado_em : Str
deriving DecidableEq

/-- `dedup_by_numero` (scraper_pesqele.py:252-261, PesqEle.py:171-180), with
the Python `seen` set represented as the list of keys seen so far. -/
def dedup_go (seen : List Str) : List RowRec → List RowRec
  | [] => []
  | r :: rs =>
    let k := pyStrip r.numero_identificacao
    if k = [] ∨ k ∈ seen then dedup_go seen rs
    else r :: dedup_go (k :: seen) rs

def dedup_by_numero (rows : List RowRec) : List RowRec :=
  dedup_go [] rows

/-! ## String ordering (Python `<` on `str`: lexicographic by code point) -/

/-- Python string `<`: lexicographic comparison by code point,
with a proper prefix smaller than its extension. -/
def strLtB : Str → Str → Bool
  | [], [] => false
  | [], _ :: _ => true
  | _ :: _, [] => false
  | a :: as, b :: bs => if a < b then true else if b < a then false else strLtB as bs

/-- Python string `<=`. -/
def strLeB (a b : Str) : Bool := !(strLtB b a)

/-- Lexicographic `<=` on pairs of strings, as used by pandas
`sort_values(by=[c1, c2])` on two key columns. -/
def keyLeB (p q : Str × Str) : Bool :=
  strLtB p.1 q.1 || (p.1 == q.1 && strLeB p.2 q.2)

/-! ## Worksheet model

A worksheet is a grid of cell values, row-major, with 1-based row and column
indices; absent cells read as the empty string.  `row_values` / `col_values`
follow the spreadsheet API in trimming trailing empty cells. -/

abbrev Sheet := List (List Str)

/-- `HEADER_ROW = 3` (scraper_pesqele.py:40). -/
def HEADER_ROW : Nat := 3

/-- `DATA_START_ROW = 4` (scraper_pesqele.py:41). -/
def DATA_START_ROW : Nat := 4

/-- `COLS_BASE` (scraper_pesqele.py:43-52). -/
def COLS_BASE : List Str :=
  [str "numero_identificacao", str "eleicao", str "empresa_contratada",
   str "data_registro", str "abrangencia", str "data_divulgacao",
   str "uf_filtro", str "capturado_em"]

/-- Drop trailing empty cells, as the spreadsheet read API does. -/
def trimTrailingEmpty (l : List Str) : List Str :=
  (l.reverse.dropWhile (· == ([] : Str))).reverse

/-- The cell at 0-based index `i` of a row. -/
def cellAt (row : List Str) (i : Nat) : Str := row.getD i []

/-- `ws.row_values(n)` (1-based). -/
def row_values (ws : Sheet) (n : Nat) : List Str :=
  trimTrailingEmpty (ws.getD (n - 1) [])

/-- `ws.col_values(idx)` (1-based). -/
def col_values (ws : Sheet) (idx : Nat) : List Str :=
  trimTrailingEmpty (ws.map (fun row => cellAt row (idx - 1)))

/-- Pad the grid with empty rows up to `n` rows. -/
def padRowsTo (ws : Sheet) (n : Nat) : Sheet :=
  ws ++ List.replicate (n - ws.length) []

/-- `ws.update(f"A{n}", [vals])`: overwrite the first `vals.length` cells of
row `n` (cells beyond that range are untouched), materializing the row if the
grid is shorter. -/
def updateRowAt (ws : Sheet) (n : Nat) (vals : List Str) : Sheet :=
  let ws' := padRowsTo ws n
  ws'.take (n - 1) ++ [vals ++ (ws'.getD (n - 1) []).drop vals.length] ++ ws'.drop n

/-- `ws.insert_rows(vals, row=r)`: insert `vals` as new rows before the
current row `r`, pushing the old rows down. -/
def insert_rows_at (ws : Sheet) (vals : List (List Str)) (r : Nat) : Sheet :=
  (padRowsTo ws (r - 1)).take (r - 1) ++ vals ++ ws.drop (r - 1)

/-- `ensure_header` (scraper_pesqele.py:447-450). -/
def ensure_header (ws : Sheet) (header : List Str) : Sheet :=
  if row_values ws HEADER_ROW = header then ws else updateRowAt ws HEADER_ROW header

/-- Python `list.index`, returning `none` in place of raising `ValueError`. -/
def listIndex (a : Str) : List Str → Option Nat
  | [] => none
  | b :: l => if b = a then some 0 else (listIndex a l).map (· + 1)

/-- The dedup key column name. -/
def KEY_COL : Str := str "numero_identificacao"

/-- `get_existing_keys` (scraper_pesqele.py:453-469): the set of stripped,
non-empty values of the key column from `DATA_START_ROW` down, represented as
a list (only membership is ever used). -/
def get_existing_keys (ws : Sheet) : List Str :=
  let header := row_values ws HEADER_ROW
  if header = [] then []
  else
    match listIndex KEY_COL header with
    | none => []
    | some i =>
      let colVals := col_values ws (i + 1)
      ((colVals.drop (DATA_START_ROW - 1)).map pyStrip).filter (fun v => v ≠ [])

/-! ## The reconciler (`insert_new_rows_top`, scraper_pesqele.py:495-523) -/

/-- Steps 505-507 of `insert_new_rows_top`: normalize the three date columns
(the remaining columns, including the key, are untouched). -/
def normalizeRow (r : RowRec) : RowRec :=
  { r with
    data_registro := parse_br_date_to_iso r.data_registro
    data_divulgacao := parse_br_date_to_iso r.data_divulgacao
    capturado_em := parse_br_datetime_to_iso r.capturado_em }

/-- A row in `COLS_BASE` column order, as written to the sheet
(`df_new.astype(str).values.tolist()`). -/
def rowToCells (r : RowRec) : List Str :=
  [r.numero_identificacao, r.eleicao, r.empresa_contratada, r.data_registro,
   r.abrangencia, r.data_divulgacao, r.uf_filtro, r.capturado_em]

/-- The `__sort` key pair of lines 517-518: `(iso_date_sort_key(data_divulgacao),
numero_identificacao)`. -/
def sortKey (r : RowRec) : Str × Str :=
  (iso_date_sort_key r.data_divulgacao, r.numero_identificacao)

/-- The comparator realizing `sort_values(by=["__sort", "numero_identificacao"],
ascending=[False, False], kind="mergesort")`: `a` may precede `b` iff `b`'s key
pair is lexicographically `<=` `a`'s. -/
def rowDescLE (a b : RowRec) : Bool := keyLeB (sortKey b) (sortKey a)

/-- The stable descending sort of line 518. -/
def sortRows (l : List RowRec) : List RowRec := l.mergeSort rowDescLE

/-- `insert_new_rows_top` (scraper_pesqele.py:495-523) as a state transformer:
returns the updated sheet and the reported insert count.  The input dataframe
is a list of row records (`df[COLS_BASE].fillna("")` is the identity on this
representation). -/
def insert_new_rows_top (ws : Sheet) (df : List RowRec) : Sheet × Nat :=
  if df = [] then (ws, 0)
  else
    let df1 := df.map normalizeRow
    let ws1 := ensure_header ws COLS_BASE
    let existing := get_existing_keys ws1
    let dfNew := df1.filter (fun r => ¬ pyStrip r.numero_identificacao ∈ existing)
    if dfNew = [] then (ws1, 0)
    else
      (insert_rows_at ws1 ((sortRows dfNew).map rowToCells) DATA_START_ROW, dfNew.length)

/-! ## Order properties of the comparator -/

theorem strLtB_irrefl (a : Str) : strLtB a a = false := by
  induction a with
  | nil => rfl
  | cons x xs ih => simp [strLtB, ih]

theorem strLtB_nil_right (a : Str) : strLtB a [] = false := by
  cases a <;> rfl

theorem strLtB_trichotomy (a b : Str) :
    strLtB a b = true ∨ a = b ∨ strLtB b a = true := by
  induction a generalizing b with
  | nil => cases b <;> simp [strLtB]
  | cons x xs ih =>
    cases b with
    | nil => simp [strLtB]
    | cons y ys =>
      rcases lt_trichotomy x y with hxy | hxy | hxy
      · left; simp [strLtB, hxy]
      · subst hxy
        rcases ih ys with h | h | h
        · left; simp [strLtB, h]
        · right; left; simp [h]
        · right; right; simp [strLtB, h]
      · right; right; simp [strLtB, hxy]

theorem strLtB_asymm {a b : Str} (h : strLtB a b = true) : strLtB b a = false := by
  induction a generalizing b with
  | nil => cases b with
    | nil => simp [strLtB] at h
    | cons y ys => simp [strLtB]
  | cons x xs ih =>
    cases b with
    | nil => simp [strLtB] at h
    | cons y ys =>
      by_cases hxy : x < y
      · have : ¬ y < x := lt_asymm hxy
        simp [strLtB, this, hxy]
      · by_cases hyx : y < x
        · simp [strLtB, hxy, hyx] at h
        · simp [strLtB, hxy, hyx] at h ⊢
          exact ih h

theorem strLtB_trans {a b c : Str} (h1 : strLtB a b = true)
    (h2 : strLtB b c = true) : strLtB a c = true := by
  induction a generalizing b c with
  | nil =>
    cases b with
    | nil => simp [strLtB] at h1
    | cons y ys =>
      cases c with
      | nil => simp [strLtB] at h2
      | cons z zs => simp [strLtB]
  | cons x xs ih =>
    cases b with
    | nil => simp [strLtB] at h1
    | cons y ys =>
      cases c with
      | nil => simp [strLtB] at h2
      | cons z zs =>
        by_cases hxy : x < y
        · by_cases hyz : y < z
          · simp [strLtB, lt_trans hxy hyz]
          · by_cases hzy : z < y
            · simp [strLtB, hyz, hzy] at h2
            · have hyzeq : y = z := le_antisymm (not_lt.mp hzy) (not_lt.mp hyz)
              subst hyzeq
              simp [strLtB, hxy]
        · by_cases hyx : y < x
          · simp [strLtB, hxy, hyx] at h1
          · have hxyeq : x = y := le_antisymm (not_lt.mp hyx) (not_lt.mp hxy)
            subst hxyeq
            simp [strLtB, hxy] at h1
            by_cases hyz : x < z
            · simp [strLtB, hyz]
            · by_cases hzy : z < x
              · simp [strLtB, hyz, hzy] at h2
              · simp [strLtB, hyz, hzy] at h2 ⊢
                exact ih h1 h2

theorem strLeB_total (a b : Str) : strLeB a b = true ∨ strLeB b a = true := by
  unfold strLeB
  rcases strLtB_trichotomy a b with h | h | h
  · left; simp [strLtB_asymm h]
  · subst h; left; simp [strLtB_irrefl]
  · right; simp [strLtB_asymm h]

theorem strLeB_trans {a b c : Str} (h1 : strLeB a b = true)
    (h2 : strLeB b c = true) : strLeB a c = true := by
  unfold strLeB at *
  simp only [Bool.not_eq_true'] at *
  by_contra hca
  simp only [Bool.not_eq_false] at hca
  rcases strLtB_trichotomy a b with h | h | h
  · have := strLtB_trans hca h
    rw [this] at h2; exact absurd h2 (by simp)
  · subst h; rw [hca] at h2; exact absurd h2 (by simp)
  · rw [h] at h1; exact absurd h1 (by simp)

theorem keyLeB_total (p q : Str × Str) : (keyLeB p q || keyLeB q p) = true := by
  unfold keyLeB
  rcases strLtB_trichotomy p.1 q.1 with h | h | h
  · simp [h]
  · rw [h]
    simp [strLtB_irrefl]
    rcases strLeB_total p.2 q.2 with h2 | h2
    · left; exact h2
    · right; exact h2
  · simp [h]

theorem keyLeB_trans {p q r : Str × Str} (h1 : keyLeB p q = true)
    (h2 : keyLeB q r = true) : keyLeB p r = true := by
  unfold keyLeB at *
  simp only [Bool.or_eq_true, Bool.and_eq_true, beq_iff_eq] at h1 h2 ⊢
  rcases h1 with h1 | ⟨h1e, h1le⟩
  · rcases h2 with h2 | ⟨h2e, h2le⟩
    · left; exact strLtB_trans h1 h2
    · left; rw [← h2e]; exact h1
  · rcases h2 with h2 | ⟨h2e, h2le⟩
    · left; rw [h1e]; exact h2
    · right; exact ⟨h1e.trans h2e, strLeB_trans h1le h2le⟩

theorem rowDescLE_total (a b : RowRec) : (rowDescLE a b || rowDescLE b a) = true := by
  unfold rowDescLE
  have := keyLeB_total (sortKey b) (sortKey a)
  rcases Bool.or_eq_true _ _ |>.mp this with h | h <;> simp [h]

theorem rowDescLE_trans {a b c : RowRec} (h1 : rowDescLE a b = true)
    (h2 : rowDescLE b c = true) : rowDescLE a c = true :=
  keyLeB_trans h2 h1

/-! ## Properties of `dedup_by_numero` -/

theorem dedup_go_sublist (seen : List Str) (rows : List RowRec) :
    (dedup_go seen rows).Sublist rows := by
  induction rows generalizing seen with
  | nil => simp [dedup_go]
  | cons r rs ih =>
    unfold dedup_go
    by_cases h : pyStrip r.numero_identificacao = [] ∨ pyStrip r.numero_identificacao ∈ seen
    · simp only [h, if_true]
      exact (ih seen).cons r
    · simp only [h, if_false]
      exact (ih _).cons₂ r

theorem dedup_go_mem {seen : List Str} {rows : List RowRec} {r : RowRec}
    (h : r ∈ dedup_go seen rows) :
    pyStrip r.numero_identificacao ∉ seen ∧
    pyStrip r.numero_identificacao ≠ [] ∧
    rows.find? (fun r' =>
      pyStrip r'.numero_identificacao == pyStrip r.numero_identificacao) = some r := by
  induction rows generalizing seen with
  | nil => simp [dedup_go] at h
  | cons r0 rs ih =>
    unfold dedup_go at h
    by_cases h0 : pyStrip r0.numero_identificacao = [] ∨
        pyStrip r0.numero_identificacao ∈ seen
    · simp only [h0, if_true] at h
      obtain ⟨hseen, hne, hfind⟩ := ih h
      refine ⟨hseen, hne, ?_⟩
      have hk : pyStrip r0.numero_identificacao ≠ pyStrip r.numero_identificacao := by
        rcases h0 with h0 | h0
        · rw [h0]; exact fun e => hne e.symm
        · exact fun e => hseen (e ▸ h0)
      have hbeq : (pyStrip r0.numero_identificacao ==
          pyStrip r.numero_identificacao) = false := beq_eq_false_iff_ne.mpr hk
      simp only [List.find?_cons, hbeq]
      exact hfind
    · simp only [h0, if_false] at h
      rcases List.mem_cons.mp h with rfl | hmem
      · push_neg at h0
        refine ⟨h0.2, h0.1, ?_⟩
        rw [List.find?_cons]
        simp
      · obtain ⟨hseen, hne, hfind⟩ := ih hmem
        rw [List.mem_cons] at hseen
        push_neg at hseen
        refine ⟨hseen.2, hne, ?_⟩
        have hbeq : (pyStrip r0.numero_identificacao ==
            pyStrip r.numero_identificacao) = false :=
          beq_eq_false_iff_ne.mpr (Ne.symm hseen.1)
        simp only [List.find?_cons, hbeq]
        exact hfind

theorem dedup_go_keys_nodup (seen : List Str) (rows : List RowRec) :
    ((dedup_go seen rows).map fun r => pyStrip r.numero_identificacao).Nodup := by
  induction rows generalizing seen with
  | nil => simp [dedup_go]
  | cons r rs ih =>
    unfold dedup_go
    by_cases h : pyStrip r.numero_identificacao = [] ∨ pyStrip r.numero_identificacao ∈ seen
    · simp only [h, if_true]
      exact ih seen
    · simp only [h, if_false, List.map_cons, List.nodup_cons]
      refine ⟨?_, ih _⟩
      intro hmem
      rw [List.mem_map] at hmem
      obtain ⟨r', hr', hkey⟩ := hmem
      have := (dedup_go_mem hr').1
      rw [hkey] at this
      exact this (List.mem_cons_self _ _)

/-! ## Concrete fixtures used by witnesses and counterexamples -/

/-- A row with a given key and all other fields empty. -/
def mkRow (k : Str) : RowRec := ⟨k, [], [], [], [], [], [], []⟩

/-- A destination already holding keys `100` and `200`. -/
def ws100 : Sheet := [[], [], COLS_BASE, [str "100"], [str "200"]]

/-- A batch with keys `100`, `300`, `300` (the two key-`300` rows differ in
another field, so first-occurrence preservation is observable). -/
def batch100 : List RowRec :=
  [mkRow (str "100"), mkRow (str "300"),
   { mkRow (str "300") with eleicao := str "x" }]

/-- An empty destination whose header is already in place. -/
def wsEmptyHdr : Sheet := [[], [], COLS_BASE]

/-- A batch holding one row whose key strips to the empty string. -/
def batchEmptyKey : List RowRec := [mkRow []]

/-- A destination whose header row carries a ninth, non-empty cell. -/
def wsExtraHdr : Sheet := [[], [], COLS_BASE ++ [str "x"]]

/-- Row with id `A1` and (already ISO) disclosure date `2026-03-05`. -/
def rA1 : RowRec := ⟨str "A1", [], [], [], [], str "2026-03-05", [], []⟩

/-- Row with id `B2` and no valid disclosure date. -/
def rB2 : RowRec := ⟨str "B2", [], [], [], [], str "", [], []⟩

/-- Row with id `C3` and disclosure date `2026-03-10`. -/
def rC3 : RowRec := ⟨str "C3", [], [], [], [], str "2026-03-10", [], []⟩

/-! ## Claim C2 -/

/-- C2: for every input list of row records, `dedup_by_numero` returns at
most one record per distinct `numero_identificacao` (the stripped keys of the
output are pairwise distinct), the output is a sublist of the input (records
kept verbatim, in input order), and each kept record is the first occurrence
of its key in the input. -/
theorem dedup_by_numero_spec (rows : List RowRec) :
    (dedup_by_numero rows).Sublist rows ∧
    ((dedup_by_numero rows).map fun r => pyStrip r.numero_identificacao).Nodup ∧
    ∀ r ∈ dedup_by_numero rows,
      rows.find? (fun r' =>
        pyStrip r'.numero_identificacao == pyStrip r.numero_identificacao) = some r :=
  ⟨dedup_go_sublist [] rows, dedup_go_keys_nodup [] rows,
   fun _ hr => (dedup_go_mem hr).2.2⟩

/-- Witness for C2 at a concrete batch containing a duplicated key. -/
theorem dedup_by_numero_spec_witness :
    (dedup_by_numero batch100).Sublist batch100 ∧
    ((dedup_by_numero batch100).map fun r => pyStrip r.numero_identificacao).Nodup ∧
    batch100.find? (fun r' =>
      pyStrip r'.numero_identificacao ==
        pyStrip (mkRow (str "300")).numero_identificacao) = some (mkRow (str "300")) :=
  ⟨(dedup_by_numero_spec batch100).1, (dedup_by_numero_spec batch100).2.1,
   (dedup_by_numero_spec batch100).2.2 (mkRow (str "300")) (by decide)⟩

/-! ## Date normalization -/

theorem not_space_of_digit {c : Char} (h : c.isDigit = true) : pyIsSpace c = false := by
  by_contra hne
  have hs : pyIsSpace c = true := by
    revert hne; cases pyIsSpace c <;> simp
  unfold pyIsSpace at hs
  simp only [Bool.or_eq_true, beq_iff_eq] at hs
  rcases hs with ((((h1 | h1) | h1) | h1) | h1) | h1 <;> subst h1 <;>
    exact absurd h (by decide)

theorem pyStrip_digit10 {d1 d2 m1 m2 y1 y2 y3 y4 : Char}
    (hd1 : d1.isDigit = true) (hy4 : y4.isDigit = true) :
    pyStrip [d1, d2, '/', m1, m2, '/', y1, y2, y3, y4]
      = [d1, d2, '/', m1, m2, '/', y1, y2, y3, y4] := by
  simp [pyStrip, List.dropWhile_cons, not_space_of_digit hd1, not_space_of_digit hy4]

/-- C10: date normalization performs no calendar validation: any string of
shape two digits, slash, two digits, slash, four digits is rearranged to
`YYYY-MM-DD`, whether or not it denotes a real date; in particular
`"99/99/2026"` maps to `"2026-99-99"` and `"31/02/2026"` to `"2026-02-31"`. -/
theorem parse_br_date_no_calendar_validation
    (d1 d2 m1 m2 y1 y2 y3 y4 : Char)
    (h : [d1, d2, m1, m2, y1, y2, y3, y4].all Char.isDigit = true) :
    parse_br_date_to_iso [d1, d2, '/', m1, m2, '/', y1, y2, y3, y4]
      = [y1, y2, y3, y4, '-', m1, m2, '-', d1, d2] ∧
    parse_br_date_to_iso (str "99/99/2026") = str "2026-99-99" ∧
    parse_br_date_to_iso (str "31/02/2026") = str "2026-02-31" := by
  refine ⟨?_, by decide, by decide⟩
  have h' := h
  simp only [List.all_cons, List.all_nil, Bool.and_eq_true, and_true] at h'
  obtain ⟨hd1, hd2, hm1, hm2, hy1, hy2, hy3, hy4⟩ := h'
  unfold parse_br_date_to_iso
  rw [pyStrip_digit10 hd1 hy4]
  simp [h]

/-- Witness for C10 at the concrete non-date `"99/99/2026"`. -/
theorem parse_br_date_no_calendar_validation_witness :
    parse_br_date_to_iso ['9', '9', '/', '9', '9', '/', '2', '0', '2', '6']
      = ['2', '0', '2', '6', '-', '9', '9', '-', '9', '9'] :=
  (parse_br_date_no_calendar_validation '9' '9' '9' '9' '2' '0' '2' '6'
    (by decide)).1

/-! ## Claim C3: datetime normalization -/

/-- Modelled from the claim's words: the input matches `DD/MM/YYYY HH:MM:SS`
with exactly those field widths and a single space separator. -/
def strictBrDateTimeShape : Str → Bool
  | [d1, d2, c1, m1, m2, c2, y1, y2, y3, y4, sp, h1, h2, e1, n1, n2, e2, s1, s2] =>
    c1 == '/' && c2 == '/' && sp == ' ' && e1 == ':' && e2 == ':' &&
    [d1, d2, m1, m2, y1, y2, y3, y4].all Char.isDigit &&
    [h1, h2, n1, n2, s1, s2].all Char.isDigit
  | _ => false

/-- Counterexample to C3: with two spaces between the date and time fields
the input does not match `DD/MM/YYYY HH:MM:SS`, yet `parse_br_datetime_to_iso`
still produces an ISO timestamp rather than the empty string. -/
theorem parse_br_datetime_strict_pattern_cex :
    parse_br_datetime_to_iso (str "05/03/2026  12:00:00")
      = str "2026-03-05 12:00:00" ∧
    strictBrDateTimeShape (str "05/03/2026  12:00:00") = false :=
  ⟨by decide, by decide⟩

/-- The relaxed shape actually recognized by the code (amended claim): after
stripping surrounding whitespace, two-digit day, slash, two-digit month,
slash, four-digit year, one or more whitespace characters, then two-digit
hour, minute and second separated by colons. -/
def relaxedBrDateTime (s : Str) : Prop :=
  ∃ d1 d2 m1 m2 y1 y2 y3 y4 w h1 h2 n1 n2 s1 s2,
    pyStrip s = [d1, d2, '/', m1, m2, '/', y1, y2, y3, y4] ++ w ++
      [h1, h2, ':', n1, n2, ':', s1, s2] ∧
    w ≠ [] ∧ w.all pyIsSpace = true ∧
    [d1, d2, m1, m2, y1, y2, y3, y4].all Char.isDigit = true ∧
    [h1, h2, n1, n2, s1, s2].all Char.isDigit = true

/-- C3 (amended): the three date examples hold as stated; the datetime
conversion maps a string to a non-empty ISO timestamp exactly when the
stripped input matches `DD/MM/YYYY`, one or more whitespace characters,
`HH:MM:SS` (rather than exactly one space and no surrounding whitespace). -/
theorem parse_br_date_and_datetime_amended :
    parse_br_date_to_iso (str "05/03/2026") = str "2026-03-05" ∧
    parse_br_date_to_iso (str "5/3/2026") = str "" ∧
    parse_br_date_to_iso (str "") = str "" ∧
    parse_br_datetime_to_iso (str "05/03/2026 12:34:56")
      = str "2026-03-05 12:34:56" ∧
    ∀ s : Str, parse_br_datetime_to_iso s ≠ [] ↔ relaxedBrDateTime s := by
  refine ⟨by decide, by decide, by decide, by decide, ?_⟩
  intro s
  unfold parse_br_datetime_to_iso relaxedBrDateTime
  generalize pyStrip s = t
  split
  next d1 d2 c1 m1 m2 c2 y1 y2 y3 y4 rest =>
    split
    next hc =>
      obtain ⟨hc1, hc2, hdig⟩ := hc
      subst hc1; subst hc2
      split
      next h1 h2 e1 n1 n2 e2 s1 s2 heq2 =>
        split
        next hc2 =>
          obtain ⟨he1, he2, hw, hdig2⟩ := hc2
          subst he1; subst he2
          refine iff_of_true (by simp)
            ⟨d1, d2, m1, m2, y1, y2, y3, y4, rest.takeWhile pyIsSpace,
             h1, h2, n1, n2, s1, s2, ?_, hw, List.all_takeWhile, hdig, hdig2⟩
          simp only [List.cons_append, List.nil_append, List.cons.injEq,
            true_and]
          rw [← heq2]
          exact (List.takeWhile_append_dropWhile _ _).symm
        next hc2 =>
          refine iff_of_false (by simp) ?_
          rintro ⟨d1', d2', m1', m2', y1', y2', y3', y4', w,
            h1', h2', n1', n2', s1', s2', hdec, hwne, hwall, hdg1, hdg2⟩
          simp only [List.cons_append, List.nil_append, List.cons.injEq] at hdec
          obtain ⟨rfl, rfl, -, rfl, rfl, -, rfl, rfl, rfl, rfl, hrest⟩ := hdec
          have hwmem : ∀ a ∈ w, pyIsSpace a := by
            intro a ha
            exact List.all_eq_true.mp hwall a ha
          have hdg1' : h1'.isDigit = true := by
            simp only [List.all_cons, Bool.and_eq_true] at hdg2
            exact hdg2.1
          have hd : rest.dropWhile pyIsSpace
              = [h1', h2', ':', n1', n2', ':', s1', s2'] := by
            rw [hrest, List.dropWhile_append_of_pos hwmem,
              List.dropWhile_cons, not_space_of_digit hdg1']
            simp
          rw [heq2] at hd
          injection hd with e1h hd; injection hd with e2h hd
          injection hd with e3h hd; injection hd with e4h hd
          injection hd with e5h hd; injection hd with e6h hd
          injection hd with e7h hd; injection hd with e8h hd
          subst e1h; subst e2h; subst e3h; subst e4h
          subst e5h; subst e6h; subst e7h; subst e8h
          have htw : rest.takeWhile pyIsSpace ≠ [] := by
            rw [hrest, List.takeWhile_append_of_pos hwmem]
            cases w with
            | nil => exact absurd rfl hwne
            | cons a w' => simp
          exact hc2 ⟨rfl, rfl, htw, hdg2⟩
      next hne2 =>
        refine iff_of_false (by simp) ?_
        rintro ⟨d1', d2', m1', m2', y1', y2', y3', y4', w,
          h1', h2', n1', n2', s1', s2', hdec, hwne, hwall, hdg1, hdg2⟩
        simp only [List.cons_append, List.nil_append, List.cons.injEq] at hdec
        obtain ⟨rfl, rfl, -, rfl, rfl, -, rfl, rfl, rfl, rfl, hrest⟩ := hdec
        have hwmem : ∀ a ∈ w, pyIsSpace a := by
          intro a ha
          exact List.all_eq_true.mp hwall a ha
        have hdg1' : h1'.isDigit = true := by
          simp only [List.all_cons, Bool.and_eq_true] at hdg2
          exact hdg2.1
        have hd : rest.dropWhile pyIsSpace
            = [h1', h2', ':', n1', n2', ':', s1', s2'] := by
          rw [hrest, List.dropWhile_append_of_pos hwmem,
            List.dropWhile_cons, not_space_of_digit hdg1']
          simp
        exact hne2 h1' h2' ':' n1' n2' ':' s1' s2' hd
    next hc =>
      refine iff_of_false (by simp) ?_
      rintro ⟨d1', d2', m1', m2', y1', y2', y3', y4', w,
        h1', h2', n1', n2', s1', s2', hdec, hwne, hwall, hdg1, hdg2⟩
      simp only [List.cons_append, List.nil_append, List.cons.injEq] at hdec
      obtain ⟨rfl, rfl, rfl, rfl, rfl, rfl, rfl, rfl, rfl, rfl, hrest⟩ := hdec
      exact hc ⟨rfl, rfl, hdg1⟩
  next hne =>
    refine iff_of_false (by simp) ?_
    rintro ⟨d1', d2', m1', m2', y1', y2', y3', y4', w,
      h1', h2', n1', n2', s1', s2', hdec, hwne, hwall, hdg1, hdg2⟩
    simp only [List.cons_append, List.nil_append] at hdec
    exact hne d1' d2' '/' m1' m2' '/' y1' y2' y3' y4'
      (w ++ [h1', h2', ':', n1', n2', ':', s1', s2']) hdec

/-! ## Claim C4: the merge ordering -/

theorem rowDescLE_valid_mono {a b : RowRec} (h : rowDescLE a b = true)
    (hb : iso_date_sort_key b.data_divulgacao ≠ []) :
    iso_date_sort_key a.data_divulgacao ≠ [] := by
  intro ha
  unfold rowDescLE keyLeB sortKey at h
  rw [ha] at h
  simp only [Bool.or_eq_true, Bool.and_eq_true, beq_iff_eq] at h
  rcases h with h | ⟨h, -⟩
  · rw [strLtB_nil_right] at h
    exact absurd h (by simp)
  · exact hb h

/-- C4: the merge ordering is a stable descending sort on the pair
(valid ISO disclosure date or empty string, identifier): the output is a
permutation of the input; consecutive output rows are non-increasing under the
descending comparator; a row with a valid disclosure date never follows one
without; an already-descending sublist of the input survives in order
(stability); and on the spec's three-row example the order is C3, A1, B2. -/
theorem merge_ordering_spec :
    (∀ l : List RowRec, List.Perm (sortRows l) l) ∧
    (∀ l : List RowRec, (sortRows l).Pairwise (fun a b => rowDescLE a b = true)) ∧
    (∀ l : List RowRec, (sortRows l).Pairwise (fun a b =>
      iso_date_sort_key b.data_divulgacao ≠ [] →
      iso_date_sort_key a.data_divulgacao ≠ [])) ∧
    (∀ l c : List RowRec, c.Pairwise (fun a b => rowDescLE a b = true) →
      c.Sublist l → c.Sublist (sortRows l)) ∧
    sortRows [rA1, rB2, rC3] = [rC3, rA1, rB2] := by
  have htr : ∀ a b c : RowRec, rowDescLE a b → rowDescLE b c → rowDescLE a c :=
    fun _ _ _ h1 h2 => rowDescLE_trans h1 h2
  have hto : ∀ a b : RowRec, rowDescLE a b || rowDescLE b a :=
    fun a b => rowDescLE_total a b
  have hpair : ∀ l : List RowRec,
      (sortRows l).Pairwise (fun a b => rowDescLE a b = true) := fun l =>
    @List.sorted_mergeSort RowRec rowDescLE htr hto l
  refine ⟨fun l => List.mergeSort_perm l _, hpair, ?_, ?_, ?_⟩
  · intro l
    exact (hpair l).imp fun h => rowDescLE_valid_mono h
  · intro l c hc hsub
    exact @List.sublist_mergeSort RowRec rowDescLE l htr hto c hc hsub
  · simp [sortRows, List.mergeSort, List.splitInTwo, List.splitAt,
      List.splitAt.go, List.merge, rowDescLE, keyLeB, sortKey,
      iso_date_sort_key, pyStrip, pyIsSpace, strLtB, strLeB,
      rA1, rB2, rC3, str]

/-- Witness for C4's stability clause at a concrete descending sublist. -/
theorem merge_ordering_spec_witness :
    [rC3, rB2].Sublist (sortRows [rA1, rC3, rB2]) :=
  merge_ordering_spec.2.2.2.1 [rA1, rC3, rB2] [rC3, rB2] (by decide) (by decide)

/-! ## Worksheet lemmas -/

theorem trimTrailingEmpty_spec (l : List Str) :
    ∃ k, l = trimTrailingEmpty l ++ List.replicate k ([] : Str) := by
  refine ⟨(l.reverse.takeWhile (· == ([] : Str))).length, ?_⟩
  conv_lhs =>
    rw [← l.reverse_reverse,
      ← List.takeWhile_append_dropWhile (· == ([] : Str)) l.reverse]
  rw [List.reverse_append]
  unfold trimTrailingEmpty
  congr 1
  rw [List.eq_replicate_iff]
  constructor
  · simp
  · intro b hb
    rw [List.mem_reverse] at hb
    have := List.all_eq_true.mp (List.all_takeWhile) b hb
    simpa using this

theorem trimTrailingEmpty_cons_of_ne {a : Str} (l : List Str) (ha : a ≠ []) :
    trimTrailingEmpty (a :: l) = a :: trimTrailingEmpty l := by
  unfold trimTrailingEmpty
  rw [List.reverse_cons, List.dropWhile_append]
  split
  next h =>
    rw [List.isEmpty_iff] at h
    rw [h]
    simp only [List.dropWhile_cons]
    have : (a == ([] : Str)) = false := beq_eq_false_iff_ne.mpr ha
    rw [this]
    simp
  next h =>
    rw [List.reverse_append]
    simp

theorem padRowsTo_of_le {ws : Sheet} {n : Nat} (h : n ≤ ws.length) :
    padRowsTo ws n = ws := by
  unfold padRowsTo
  rw [Nat.sub_eq_zero_of_le h]
  simp

theorem length_padRowsTo (ws : Sheet) (n : Nat) :
    (padRowsTo ws n).length = max ws.length n := by
  unfold padRowsTo
  simp
  omega

theorem padRowsTo_drop (ws : Sheet) (n : Nat) :
    (padRowsTo ws n).drop n = ws.drop n := by
  unfold padRowsTo
  rw [List.drop_append_eq_append_drop]
  rcases le_or_lt n ws.length with h | h
  · rw [Nat.sub_eq_zero_of_le h]
    simp
  · rw [List.drop_of_length_le (le_of_lt h), List.drop_replicate]
    simp [List.drop_of_length_le (le_of_lt h)]

theorem padRowsTo_getD (ws : Sheet) (n i : Nat) (h : i < ws.length) :
    (padRowsTo ws n).getD i [] = ws.getD i [] := by
  unfold padRowsTo
  rw [List.getD_append _ _ _ _ h]

/-- The well-formedness that header reconciliation establishes: the grid
reaches the header row, and the header row's leading cells are exactly the
fixed column list. -/
def headerOK (ws : Sheet) : Prop :=
  HEADER_ROW ≤ ws.length ∧
  (ws.getD (HEADER_ROW - 1) []).take COLS_BASE.length = COLS_BASE

theorem take_cols_append (x : List Str) :
    (COLS_BASE ++ x).take COLS_BASE.length = COLS_BASE :=
  List.take_left COLS_BASE x

theorem updateRowAt_headerOK (ws : Sheet) :
    headerOK (updateRowAt ws HEADER_ROW COLS_BASE) := by
  unfold headerOK updateRowAt padRowsTo HEADER_ROW
  rcases ws with _ | ⟨a, _ | ⟨b, _ | ⟨c, rest⟩⟩⟩ <;>
    simp [List.replicate, take_cols_append]

theorem ensure_header_headerOK (ws : Sheet) :
    headerOK (ensure_header ws COLS_BASE) := by
  unfold ensure_header
  split
  next h =>
    unfold row_values at h
    have hlen : HEADER_ROW ≤ ws.length := by
      by_contra hlt
      push_neg at hlt
      rw [List.getD_eq_default _ _ (by unfold HEADER_ROW at hlt ⊢; omega)] at h
      exact absurd h.symm (by decide)
    obtain ⟨k, hk⟩ := trimTrailingEmpty_spec (ws.getD (HEADER_ROW - 1) [])
    rw [h] at hk
    exact ⟨hlen, by rw [hk, take_cols_append]⟩
  next =>
    exact updateRowAt_headerOK ws

theorem ensure_header_of_headerOK {ws : Sheet} (h : headerOK ws) :
    ensure_header ws COLS_BASE = ws := by
  unfold ensure_header
  split
  next => rfl
  next =>
    unfold headerOK HEADER_ROW at h
    rcases ws with _ | ⟨a, _ | ⟨b, _ | ⟨c, rest⟩⟩⟩
    · simp at h
    · simp at h
    · simp at h
    · simp only [List.getD_cons_succ, List.getD_cons_zero] at h
      unfold updateRowAt padRowsTo HEADER_ROW
      have hpad : (3 : Nat) - (a :: b :: c :: rest).length = 0 := by
        simp
      rw [hpad]
      simp only [List.replicate, List.append_nil, List.take_succ_cons,
        List.take_zero, List.drop_succ_cons, List.drop_zero,
        List.getD_cons_succ, List.getD_cons_zero]
      have : COLS_BASE ++ c.drop COLS_BASE.length = c := by
        conv_rhs => rw [← List.take_append_drop COLS_BASE.length c]
        rw [h.2]
      rw [this]
      rfl

theorem ensure_header_drop (ws : Sheet) :
    (ensure_header ws COLS_BASE).drop HEADER_ROW = ws.drop HEADER_ROW := by
  unfold ensure_header
  split
  next => rfl
  next =>
    unfold updateRowAt padRowsTo HEADER_ROW
    rcases ws with _ | ⟨a, _ | ⟨b, _ | ⟨c, rest⟩⟩⟩ <;>
      simp [List.replicate]

theorem ensure_header_length (ws : Sheet) :
    ws.length ≤ (ensure_header ws COLS_BASE).length := by
  unfold ensure_header
  split
  next => exact le_refl _
  next =>
    unfold updateRowAt padRowsTo HEADER_ROW
    rcases ws with _ | ⟨a, _ | ⟨b, _ | ⟨c, rest⟩⟩⟩ <;> simp [List.replicate]

theorem insert_rows_at_eq {ws : Sheet} (h : HEADER_ROW ≤ ws.length)
    (vals : List (List Str)) :
    insert_rows_at ws vals DATA_START_ROW =
      ws.take HEADER_ROW ++ vals ++ ws.drop HEADER_ROW := by
  unfold insert_rows_at DATA_START_ROW
  unfold HEADER_ROW at h ⊢
  rw [show (4 : Nat) - 1 = 3 from rfl, padRowsTo_of_le h]

theorem length_take_header {ws : Sheet} (h : HEADER_ROW ≤ ws.length) :
    (ws.take HEADER_ROW).length = HEADER_ROW := by
  rw [List.length_take]
  omega

theorem insert_rows_at_headerOK {ws : Sheet} (h : headerOK ws)
    (vals : List (List Str)) :
    headerOK (insert_rows_at ws vals DATA_START_ROW) := by
  rw [insert_rows_at_eq h.1]
  constructor
  · rw [List.append_assoc, List.length_append, length_take_header h.1]
    omega
  · rw [List.append_assoc, List.getD_append _ _ _ _ (by
      rw [length_take_header h.1]; unfold HEADER_ROW; omega)]
    rw [List.getD_eq_getElem?_getD, List.getElem?_take_of_lt (by unfold HEADER_ROW; omega),
      ← List.getD_eq_getElem?_getD]
    exact h.2

theorem insert_rows_at_data {ws : Sheet} (h : HEADER_ROW ≤ ws.length)
    (vals : List (List Str)) :
    (insert_rows_at ws vals DATA_START_ROW).drop HEADER_ROW =
      vals ++ ws.drop HEADER_ROW := by
  rw [insert_rows_at_eq h, List.append_assoc,
    List.drop_left' (length_take_header h)]

/-! ## Characterizing `get_existing_keys` -/

theorem trim_cols_append (t : List Str) :
    trimTrailingEmpty (COLS_BASE ++ t) = COLS_BASE ++ trimTrailingEmpty t := by
  show trimTrailingEmpty (str "numero_identificacao" :: str "eleicao" ::
    str "empresa_contratada" :: str "data_registro" :: str "abrangencia" ::
    str "data_divulgacao" :: str "uf_filtro" :: str "capturado_em" :: t) = _
  rw [trimTrailingEmpty_cons_of_ne _ (by decide),
    trimTrailingEmpty_cons_of_ne _ (by decide),
    trimTrailingEmpty_cons_of_ne _ (by decide),
    trimTrailingEmpty_cons_of_ne _ (by decide),
    trimTrailingEmpty_cons_of_ne _ (by decide),
    trimTrailingEmpty_cons_of_ne _ (by decide),
    trimTrailingEmpty_cons_of_ne _ (by decide),
    trimTrailingEmpty_cons_of_ne _ (by decide)]
  rfl

theorem listIndex_key_cols (x : List Str) :
    listIndex KEY_COL (COLS_BASE ++ x) = some 0 := by
  show listIndex KEY_COL (KEY_COL :: _) = some 0
  unfold listIndex
  rw [if_pos rfl]

/-- The stripped, non-empty key-column values of the data region, read
without the trailing-empty trim (invisible through the empty-value filter). -/
def existingOf (ws : Sheet) : List Str :=
  (((ws.map (fun row => cellAt row 0)).drop (DATA_START_ROW - 1)).map pyStrip).filter
    (fun v => v ≠ [])

theorem strip_filter_trim (X : List Str) (n : Nat) :
    (((trimTrailingEmpty X).drop n).map pyStrip).filter (fun v => v ≠ []) =
      ((X.drop n).map pyStrip).filter (fun v => v ≠ []) := by
  obtain ⟨k, hk⟩ := trimTrailingEmpty_spec X
  conv_rhs => rw [hk]
  rw [List.drop_append_eq_append_drop, List.map_append, List.filter_append,
    List.drop_replicate, List.map_replicate]
  have h1 : pyStrip [] = [] := rfl
  rw [h1]
  rw [List.filter_replicate_of_neg (by simp)]
  rw [List.append_nil]

theorem get_existing_keys_of_headerOK {ws : Sheet} (h : headerOK ws) :
    get_existing_keys ws = existingOf ws := by
  unfold get_existing_keys row_values
  have hrow : ws.getD (HEADER_ROW - 1) [] =
      COLS_BASE ++ (ws.getD (HEADER_ROW - 1) []).drop COLS_BASE.length := by
    conv_lhs =>
      rw [← List.take_append_drop COLS_BASE.length (ws.getD (HEADER_ROW - 1) [])]
    rw [h.2]
  rw [hrow, trim_cols_append]
  rw [if_neg (by simp [COLS_BASE, str])]
  rw [listIndex_key_cols]
  unfold col_values existingOf
  exact strip_filter_trim _ _

theorem existingOf_insert {ws : Sheet} (h : headerOK ws)
    (cells : List (List Str)) :
    existingOf (insert_rows_at ws cells DATA_START_ROW) =
      ((cells.map (fun row => cellAt row 0)).map pyStrip).filter (fun v => v ≠ [])
        ++ existingOf ws := by
  unfold existingOf
  rw [insert_rows_at_eq h.1, List.append_assoc, List.map_append,
    List.drop_append_eq_append_drop]
  have hlen : (List.map (fun row => cellAt row 0) (ws.take HEADER_ROW)).length
      = DATA_START_ROW - 1 := by
    rw [List.length_map, length_take_header h.1]
    rfl
  rw [List.drop_of_length_le (le_of_eq hlen), hlen, Nat.sub_self, List.drop_zero,
    List.nil_append, List.map_append, List.map_append, List.filter_append,
    List.map_drop]
  rfl

/-! ## The reconciler's branch structure -/

/-- The genuinely-new subset the reconciler computes: normalized batch rows
whose stripped key is not among the destination's existing keys. -/
def newRowsOf (ws : Sheet) (df : List RowRec) : List RowRec :=
  (df.map normalizeRow).filter (fun r =>
    ¬ pyStrip r.numero_identificacao ∈ get_existing_keys (ensure_header ws COLS_BASE))

theorem insert_new_rows_top_eq (ws : Sheet) (df : List RowRec) :
    insert_new_rows_top ws df =
      if df = [] then (ws, 0)
      else if newRowsOf ws df = [] then (ensure_header ws COLS_BASE, 0)
      else (insert_rows_at (ensure_header ws COLS_BASE)
              ((sortRows (newRowsOf ws df)).map rowToCells) DATA_START_ROW,
            (newRowsOf ws df).length) := rfl

theorem length_cells_sort (l : List RowRec) :
    ((sortRows l).map rowToCells).length = l.length := by
  rw [List.length_map]
  unfold sortRows
  rw [List.length_mergeSort]

/-! ## Claim C7 -/

/-- C7: the reconciler is prepend-only at the fixed anchor: the merged sheet
carries the sorted new subset at the data-start row, every pre-existing data
row survives unchanged immediately below the inserted block, the reported
count is the size of the new subset, and an empty subset means zero inserted
and an untouched data region. -/
theorem insert_new_rows_top_frame (ws : Sheet) (df : List RowRec) :
    ((insert_new_rows_top ws df).1.drop (DATA_START_ROW - 1)).take
        (insert_new_rows_top ws df).2
      = (sortRows (newRowsOf ws df)).map rowToCells ∧
    (insert_new_rows_top ws df).1.drop
        (DATA_START_ROW - 1 + (insert_new_rows_top ws df).2)
      = ws.drop (DATA_START_ROW - 1) ∧
    (insert_new_rows_top ws df).2 = (newRowsOf ws df).length ∧
    (newRowsOf ws df = [] →
      (insert_new_rows_top ws df).1.drop (DATA_START_ROW - 1)
          = ws.drop (DATA_START_ROW - 1) ∧
      (insert_new_rows_top ws df).2 = 0) := by
  rw [insert_new_rows_top_eq]
  by_cases hdf : df = []
  · subst hdf
    rw [if_pos rfl]
    have hnew : newRowsOf ws [] = [] := rfl
    rw [hnew]
    exact ⟨by simp [sortRows], rfl, rfl, fun _ => ⟨rfl, rfl⟩⟩
  · rw [if_neg hdf]
    by_cases hnew : newRowsOf ws df = []
    · rw [if_pos hnew, hnew]
      have hdrop : (ensure_header ws COLS_BASE).drop (DATA_START_ROW - 1)
          = ws.drop (DATA_START_ROW - 1) := ensure_header_drop ws
      exact ⟨by simp [sortRows], by simpa using hdrop, rfl, fun _ => ⟨hdrop, rfl⟩⟩
    · rw [if_neg hnew]
      have hOK := ensure_header_headerOK ws
      have hdata := insert_rows_at_data hOK.1
        ((sortRows (newRowsOf ws df)).map rowToCells)
      have hdrop3 : (insert_rows_at (ensure_header ws COLS_BASE)
            ((sortRows (newRowsOf ws df)).map rowToCells)
            DATA_START_ROW).drop (DATA_START_ROW - 1)
          = (sortRows (newRowsOf ws df)).map rowToCells ++
            (ensure_header ws COLS_BASE).drop (DATA_START_ROW - 1) := hdata
      refine ⟨?_, ?_, rfl, fun hc => absurd hc hnew⟩
      · rw [hdrop3, List.take_left' (length_cells_sort _)]
      · rw [← List.drop_drop, hdrop3,
          List.drop_left' (length_cells_sort _)]
        exact ensure_header_drop ws

/-- Witness for C7's empty-subset clause at a concrete destination. -/
theorem insert_new_rows_top_frame_witness :
    (insert_new_rows_top ws100 []).1.drop (DATA_START_ROW - 1)
        = ws100.drop (DATA_START_ROW - 1) ∧
    (insert_new_rows_top ws100 []).2 = 0 :=
  (insert_new_rows_top_frame ws100 []).2.2.2 (by decide)

/-! ## Claim C6 -/

/-- Counterexample to C6: when the stored header row carries a ninth,
non-empty cell, `ensure_header` rewrites only the first eight cells, so the
header row afterwards still does not equal the fixed column list exactly. -/
theorem ensure_header_exact_rewrite_cex :
    row_values (ensure_header wsExtraHdr COLS_BASE) HEADER_ROW ≠ COLS_BASE := by
  decide

/-- C6 (amended): whenever the header row differs from the fixed column list,
its first `COLS_BASE.length` cells are rewritten to the list (cells beyond
that width are untouched); a header row already equal to the list is left
unchanged; and for every non-empty batch the merged sheet's header row leads
with the fixed column list, established before the data insert. -/
theorem ensure_header_amended :
    (∀ ws : Sheet, ((ensure_header ws COLS_BASE).getD (HEADER_ROW - 1) []).take
        COLS_BASE.length = COLS_BASE) ∧
    (∀ ws : Sheet, row_values ws HEADER_ROW = COLS_BASE →
      ensure_header ws COLS_BASE = ws) ∧
    (∀ (ws : Sheet) (df : List RowRec), df ≠ [] →
      ((insert_new_rows_top ws df).1.getD (HEADER_ROW - 1) []).take
        COLS_BASE.length = COLS_BASE) := by
  refine ⟨fun ws => (ensure_header_headerOK ws).2, ?_, ?_⟩
  · intro ws h
    unfold ensure_header
    rw [if_pos h]
  · intro ws df hdf
    rw [insert_new_rows_top_eq, if_neg hdf]
    by_cases hnew : newRowsOf ws df = []
    · rw [if_pos hnew]
      exact (ensure_header_headerOK ws).2
    · rw [if_neg hnew]
      exact (insert_rows_at_headerOK (ensure_header_headerOK ws) _).2

/-- Witness for C6 (amended) at concrete destinations. -/
theorem ensure_header_amended_witness :
    ensure_header wsEmptyHdr COLS_BASE = wsEmptyHdr ∧
    ((insert_new_rows_top ws100 batch100).1.getD (HEADER_ROW - 1) []).take
        COLS_BASE.length = COLS_BASE :=
  ⟨ensure_header_amended.2.1 wsEmptyHdr (by decide),
   ensure_header_amended.2.2 ws100 batch100 (by decide)⟩

/-! ## Claim C5 -/

/-- Counterexample to C5: with destination keys `{100, 200}` and batch keys
`[100, 300, 300]`, the reconciler does not insert exactly one row — it
inserts both key-`300` rows, because it never de-duplicates within the
batch. -/
theorem merge_duplicate_batch_cex :
    (insert_new_rows_top ws100 batch100).2 ≠ 1 := by
  decide

/-- C5 (amended): with destination keys `{100, 200}` and batch keys
`[100, 300, 300]`, exactly two rows are inserted, both with key `300`, which
afterwards appears twice in the key column; only after `dedup_by_numero` does
the batch insert key `300` exactly once. -/
theorem merge_duplicate_batch_amended :
    (insert_new_rows_top ws100 batch100).2 = 2 ∧
    ((insert_new_rows_top ws100 batch100).1.map (fun row => cellAt row 0)).count
        (str "300") = 2 ∧
    (insert_new_rows_top ws100 (dedup_by_numero batch100)).2 = 1 ∧
    ((insert_new_rows_top ws100 (dedup_by_numero batch100)).1.map
        (fun row => cellAt row 0)).count (str "300") = 1 := by
  refine ⟨by decide, ?_, by decide, ?_⟩ <;>
    simp [insert_new_rows_top, ensure_header, get_existing_keys, row_values,
      col_values, trimTrailingEmpty, cellAt, updateRowAt, padRowsTo,
      insert_rows_at, listIndex, sortRows, List.mergeSort, List.splitInTwo,
      List.splitAt, List.splitAt.go, List.merge, rowDescLE, keyLeB, sortKey,
      iso_date_sort_key, normalizeRow, parse_br_date_to_iso,
      parse_br_datetime_to_iso, pyStrip, pyIsSpace, strLtB, strLeB, rowToCells,
      COLS_BASE, KEY_COL, HEADER_ROW, DATA_START_ROW, str, mkRow, ws100,
      batch100, dedup_by_numero, dedup_go, List.count, List.countP,
      List.countP.go, List.filter]

/-! ## Claim C1: idempotence of the reconciler -/

theorem normalizeRow_key (r : RowRec) :
    (normalizeRow r).numero_identificacao = r.numero_identificacao := rfl

theorem cellAt_rowToCells (r : RowRec) :
    cellAt (rowToCells r) 0 = r.numero_identificacao := rfl

/-- Counterexample to C1: a batch containing a row whose key strips to the
empty string is re-inserted on every run, because empty keys are excluded
from the existing-key set; the second run reports one inserted row, not
zero. -/
theorem insert_new_rows_top_idempotent_cex :
    (insert_new_rows_top (insert_new_rows_top wsEmptyHdr batchEmptyKey).1
      batchEmptyKey).2 = 1 := by
  simp [insert_new_rows_top, ensure_header, get_existing_keys, row_values,
    col_values, trimTrailingEmpty, cellAt, updateRowAt, padRowsTo,
    insert_rows_at, listIndex, sortRows, List.mergeSort, rowToCells,
    normalizeRow, parse_br_date_to_iso, parse_br_datetime_to_iso, pyStrip,
    pyIsSpace, COLS_BASE, KEY_COL, HEADER_ROW, DATA_START_ROW, str, mkRow,
    wsEmptyHdr, batchEmptyKey, List.filter]

/-- C1 (amended): for every destination state and every batch all of whose
keys are non-empty after stripping, a second run of the reconciler with the
same batch changes nothing and reports zero inserted, because every key of
the batch is in the destination's existing-key set after the first run. -/
theorem insert_new_rows_top_idempotent_amended (ws : Sheet) (df : List RowRec)
    (h : ∀ r ∈ df, pyStrip r.numero_identificacao ≠ []) :
    insert_new_rows_top (insert_new_rows_top ws df).1 df
        = ((insert_new_rows_top ws df).1, 0) ∧
    ∀ r ∈ df, pyStrip r.numero_identificacao ∈
      get_existing_keys (insert_new_rows_top ws df).1 := by
  by_cases hdf : df = []
  · subst hdf
    exact ⟨rfl, fun r hr => absurd hr (List.not_mem_nil r)⟩
  · have hOK : headerOK (ensure_header ws COLS_BASE) := ensure_header_headerOK ws
    have hEH2 : ensure_header (ensure_header ws COLS_BASE) COLS_BASE
        = ensure_header ws COLS_BASE := ensure_header_of_headerOK hOK
    by_cases hnew : newRowsOf ws df = []
    · -- First run only reconciles the header; every batch key was already
      -- present.
      have hall : ∀ r ∈ df, pyStrip r.numero_identificacao ∈
          get_existing_keys (ensure_header ws COLS_BASE) := by
        intro r hr
        by_contra hni
        have hmem : normalizeRow r ∈ newRowsOf ws df := by
          refine List.mem_filter.mpr ⟨List.mem_map_of_mem _ hr, ?_⟩
          simp only [normalizeRow_key, decide_eq_true_eq]
          exact hni
        rw [hnew] at hmem
        exact absurd hmem (List.not_mem_nil _)
      have hnew2 : newRowsOf (ensure_header ws COLS_BASE) df = [] := by
        unfold newRowsOf
        rw [hEH2, List.filter_eq_nil_iff]
        intro r hr
        obtain ⟨r0, hr0, rfl⟩ := List.mem_map.mp hr
        simp only [normalizeRow_key, decide_eq_true_eq, not_not]
        exact hall r0 hr0
      have h1 : (insert_new_rows_top ws df).1 = ensure_header ws COLS_BASE := by
        rw [insert_new_rows_top_eq, if_neg hdf, if_pos hnew]
      constructor
      · rw [h1, insert_new_rows_top_eq, if_neg hdf, if_pos hnew2, hEH2]
      · intro r hr
        rw [h1]
        exact hall r hr
    · -- First run inserts the new subset; afterwards both the old and the
      -- freshly inserted keys are present.
      have hOK1 : headerOK (insert_rows_at (ensure_header ws COLS_BASE)
          ((sortRows (newRowsOf ws df)).map rowToCells) DATA_START_ROW) :=
        insert_rows_at_headerOK hOK _
      have h1 : (insert_new_rows_top ws df).1 =
          insert_rows_at (ensure_header ws COLS_BASE)
            ((sortRows (newRowsOf ws df)).map rowToCells) DATA_START_ROW := by
        rw [insert_new_rows_top_eq, if_neg hdf, if_neg hnew]
      have hmem : ∀ r ∈ df, pyStrip r.numero_identificacao ∈
          get_existing_keys (insert_new_rows_top ws df).1 := by
        intro r hr
        rw [h1, get_existing_keys_of_headerOK hOK1, existingOf_insert hOK]
        by_cases hcase : pyStrip r.numero_identificacao ∈
            get_existing_keys (ensure_header ws COLS_BASE)
        · refine List.mem_append_right _ ?_
          rw [← get_existing_keys_of_headerOK hOK]
          exact hcase
        · refine List.mem_append_left _ ?_
          have hr' : normalizeRow r ∈ newRowsOf ws df := by
            refine List.mem_filter.mpr ⟨List.mem_map_of_mem _ hr, ?_⟩
            simp only [normalizeRow_key, decide_eq_true_eq]
            exact hcase
          have hr'' : normalizeRow r ∈ sortRows (newRowsOf ws df) := by
            unfold sortRows
            rw [List.mem_mergeSort]
            exact hr'
          refine List.mem_filter.mpr ⟨?_, by
            simp only [decide_eq_true_eq]
            exact h r hr⟩
          refine List.mem_map.mpr ⟨r.numero_identificacao, ?_, rfl⟩
          refine List.mem_map.mpr ⟨rowToCells (normalizeRow r), ?_, rfl⟩
          exact List.mem_map_of_mem _ hr''
      have hEH1 : ensure_header (insert_new_rows_top ws df).1 COLS_BASE
          = (insert_new_rows_top ws df).1 := by
        rw [h1]
        exact ensure_header_of_headerOK hOK1
      have hnew2 : newRowsOf (insert_new_rows_top ws df).1 df = [] := by
        unfold newRowsOf
        rw [hEH1, List.filter_eq_nil_iff]
        intro r hr
        obtain ⟨r0, hr0, rfl⟩ := List.mem_map.mp hr
        simp only [normalizeRow_key, decide_eq_true_eq, not_not]
        exact hmem r0 hr0
      refine ⟨?_, hmem⟩
      rw [insert_new_rows_top_eq, if_neg hdf, if_pos hnew2, hEH1]

/-- Witness for C1 (amended) at a concrete destination and batch. -/
theorem insert_new_rows_top_idempotent_amended_witness :
    insert_new_rows_top (insert_new_rows_top ws100 batch100).1 batch100
        = ((insert_new_rows_top ws100 batch100).1, 0) ∧
    ∀ r ∈ batch100, pyStrip r.numero_identificacao ∈
      get_existing_keys (insert_new_rows_top ws100 batch100).1 :=
  insert_new_rows_top_idempotent_amended ws100 batch100 (by decide)

/-! ## Claim C8: driver error handling

The drivers' control flow is embedded with a scope oracle: `scope u` is the
outcome of scraping and storing region `u` (`ok` if the whole per-region body
succeeded, `error` for any exception raised inside it). -/

/-- `SKIP_SHEETS` (scraper_pesqele.py:54). -/
def SKIP_SHEETS : List Str := [str "Dashboard"]

/-- Python `str.upper()` on ASCII region labels. -/
def pyUpper (s : Str) : Str := s.map Char.toUpper

/-- The per-UF loop of `run_to_google_sheets_insert_dedup`
(scraper_pesqele.py:574-583): each UF is processed inside `try/except`, a
failure skipping only that UF (`continue`).  Returns the successfully
processed UFs in order. -/
def processUFs (scope : Str → Except Unit Unit) : List Str → List Str
  | [] => []
  | u :: rest =>
    if u ∈ SKIP_SHEETS then processUFs scope rest
    else
      match scope u with
      | Except.ok _ => u :: processUFs scope rest
      | Except.error _ => processUFs scope rest

/-- `run_to_google_sheets_insert_dedup` (scraper_pesqele.py:553-589): the
aggregate BRASIL scope runs first, outside any per-region handler, so its
failure propagates; then every non-BRASIL UF runs through the protected
loop. -/
def run_to_google_sheets_insert_dedup (brasil : Except Unit Unit)
    (ufs : List Str) (scope : Str → Except Unit Unit) :
    Except Unit (List Str) :=
  match brasil with
  | Except.error e => Except.error e
  | Except.ok _ =>
    Except.ok (processUFs scope (ufs.filter (fun u => pyUpper u ≠ str "BRASIL")))

/-- The per-UF loop of `run_daily_scrape_to_sheets` (PesqEle.py:313-357): the
loop body has no `try/except`, so the first failing UF aborts the remaining
ones. -/
def pesqeleProcessUFs (scope : Str → Except Unit Unit) :
    List Str → Except Unit (List Str)
  | [] => Except.ok []
  | u :: rest =>
    if pyStrip u = [] then pesqeleProcessUFs scope rest
    else
      match scope u with
      | Except.error e => Except.error e
      | Except.ok _ => (pesqeleProcessUFs scope rest).map (fun l => u :: l)

theorem processUFs_cons (scope : Str → Except Unit Unit) (u : Str)
    (rest : List Str) :
    processUFs scope (u :: rest) =
      if u ∈ SKIP_SHEETS then processUFs scope rest
      else
        match scope u with
        | Except.ok _ => u :: processUFs scope rest
        | Except.error _ => processUFs scope rest := rfl

/-- Counterexample to C8: a failure in the aggregate BRASIL scope aborts the
entire scraper run — the remaining regions (here `SP`, whose scope would
succeed) are never processed. -/
theorem driver_aggregate_failure_cex :
    run_to_google_sheets_insert_dedup (Except.error ()) [str "SP"]
      (fun _ => Except.ok ()) = Except.error () := rfl

/-- C8 (amended): in the scraper driver a failure of one per-UF scope is
caught and only that UF is dropped — the regions before and after it are
still processed; with a successful aggregate scope the run completes
normally; but (per the counterexample) a failing aggregate scope aborts the
run, and in the PesqEle driver a failing region aborts all remaining
regions. -/
theorem driver_error_handling_amended :
    (∀ (scope : Str → Except Unit Unit) (u : Str) (us vs : List Str),
      scope u = Except.error () → u ∉ SKIP_SHEETS →
      processUFs scope (us ++ u :: vs)
        = processUFs scope us ++ processUFs scope vs) ∧
    (∀ (scope : Str → Except Unit Unit) (ufs : List Str),
      run_to_google_sheets_insert_dedup (Except.ok ()) ufs scope
        = Except.ok (processUFs scope
            (ufs.filter (fun u => pyUpper u ≠ str "BRASIL")))) ∧
    (∀ (scope : Str → Except Unit Unit) (u : Str) (rest : List Str),
      pyStrip u ≠ [] → scope u = Except.error () →
      pesqeleProcessUFs scope (u :: rest) = Except.error ()) := by
  refine ⟨?_, fun _ _ => rfl, ?_⟩
  · intro scope u us vs hu hskip
    induction us with
    | nil =>
      simp only [List.nil_append]
      rw [processUFs_cons, if_neg hskip, hu]
      rfl
    | cons w ws ih =>
      simp only [List.cons_append]
      rw [processUFs_cons, processUFs_cons]
      by_cases hw : w ∈ SKIP_SHEETS
      · rw [if_pos hw, if_pos hw, ih]
      · rw [if_neg hw, if_neg hw]
        cases scope w with
        | ok _ => simp only [ih, List.cons_append]
        | error _ => exact ih
  · intro scope u rest hne hu
    show (if pyStrip u = [] then pesqeleProcessUFs scope rest
      else match scope u with
        | Except.error e => Except.error e
        | Except.ok _ => (pesqeleProcessUFs scope rest).map
            (fun l => u :: l)) = Except.error ()
    rw [if_neg hne, hu]

/-- Witness for C8 (amended) at a concrete failing region. -/
theorem driver_error_handling_amended_witness :
    processUFs (fun u => if u = str "SP" then Except.error () else Except.ok ())
        ([str "AC"] ++ str "SP" :: [str "RJ"])
      = processUFs (fun u => if u = str "SP" then Except.error ()
          else Except.ok ()) [str "AC"] ++
        processUFs (fun u => if u = str "SP" then Except.error ()
          else Except.ok ()) [str "RJ"] ∧
    pesqeleProcessUFs (fun u => if u = str "SP" then Except.error ()
        else Except.ok ()) (str "SP" :: [str "RJ"]) = Except.error () :=
  ⟨driver_error_handling_amended.1 _ (str "SP") [str "AC"] [str "RJ"]
      (by simp) (by decide),
   driver_error_handling_amended.2.2 _ (str "SP") [str "RJ"]
      (by decide) (by simp)⟩

/-! ## Claim C9: batched insert with one retry

`insert_rows_batched` (PesqEle.py:285-294) slices the rows into chunks of
`batch_size` and inserts each chunk at the anchor row; an `APIError` on a
chunk is retried once after a fixed delay (`time.sleep(2)`, a no-op in this
model), a second failure propagating to the caller.  The write API is
modelled by an oracle: `fails i a = true` means the `a`-th attempt for chunk
`i` raises `APIError`. -/

/-- `INSERT_AT_ROW = 2` (PesqEle.py:47). -/
def INSERT_AT_ROW : Nat := 2

/-- The `i += batch_size` slicing loop (the degenerate `bs = 0`, on which the
Python loop would not terminate, is never used: the callers pass 200). -/
def chunksOf (bs : Nat) (l : List (List Str)) : List (List (List Str)) :=
  if h : bs = 0 ∨ l = [] then []
  else l.take bs :: chunksOf bs (l.drop bs)
termination_by l.length
decreasing_by
  push_neg at h
  rw [List.length_drop]
  have : 0 < l.length := List.length_pos.mpr h.2
  omega

/-- One chunk's `try/except APIError` block: attempt, on failure retry once,
on a second failure propagate.  Returns the updated sheet and the number of
write attempts made. -/
def insert_chunk (sheet : Sheet) (chunk : List (List Str))
    (f : Nat → Bool) : Except Unit (Sheet × Nat) :=
  if f 0 = false then Except.ok (insert_rows_at sheet chunk INSERT_AT_ROW, 1)
  else if f 1 = false then
    Except.ok (insert_rows_at sheet chunk INSERT_AT_ROW, 2)
  else Except.error ()

/-- The chunk loop, threading the sheet and collecting attempt counts. -/
def insert_rows_batched_go (fails : Nat → Nat → Bool) :
    Sheet → Nat → List (List (List Str)) → Except Unit (Sheet × List Nat)
  | sheet, _, [] => Except.ok (sheet, [])
  | sheet, i, c :: cs =>
    match insert_chunk sheet c (fails i) with
    | Except.error e => Except.error e
    | Except.ok (s', a) =>
      (insert_rows_batched_go fails s' (i + 1) cs).map (fun p => (p.1, a :: p.2))

/-- `insert_rows_batched` (PesqEle.py:285-294). -/
def insert_rows_batched (sheet : Sheet) (rows : List (List Str)) (bs : Nat)
    (fails : Nat → Nat → Bool) : Except Unit (Sheet × List Nat) :=
  insert_rows_batched_go fails sheet 0 (chunksOf bs rows)

theorem insert_rows_batched_go_ok (fails : Nat → Nat → Bool)
    (cs : List (List (List Str))) :
    ∀ (s : Sheet) (i : Nat) (s' : Sheet) (a : List Nat),
      insert_rows_batched_go fails s i cs = Except.ok (s', a) →
      a = (List.range' i cs.length).map (fun j => if fails j 0 then 2 else 1) := by
  induction cs with
  | nil =>
    intro s i s' a h
    unfold insert_rows_batched_go at h
    injection h with h
    injection h with h1 h2
    rw [← h2]
    rfl
  | cons c cs ih =>
    intro s i s' a h
    unfold insert_rows_batched_go at h
    rcases hc : insert_chunk s c (fails i) with e | p
    · rw [hc] at h
      exact absurd h (by simp)
    · obtain ⟨ps, pa⟩ := p
      rw [hc] at h
      replace h : Except.map (fun p => (p.1, pa :: p.2))
          (insert_rows_batched_go fails ps (i + 1) cs)
            = Except.ok (s', a) := h
      rcases hg : insert_rows_batched_go fails ps (i + 1) cs with e' | q
      · rw [hg] at h
        exact absurd h (by simp [Except.map])
      · obtain ⟨qs, qa⟩ := q
        rw [hg] at h
        simp only [Except.map, Except.ok.injEq, Prod.mk.injEq] at h
        have ha : a = pa :: qa := h.2.symm
        have hp2 : pa = if fails i 0 then 2 else 1 := by
          unfold insert_chunk at hc
          by_cases h0 : fails i 0 = false
          · rw [if_pos h0] at hc
            injection hc with hc
            injection hc with hc1 hc2
            rw [← hc2]
            simp [h0]
          · rw [if_neg h0] at hc
            simp only [Bool.not_eq_false] at h0
            by_cases h1 : fails i 1 = false
            · rw [if_pos h1] at hc
              injection hc with hc
              injection hc with hc1 hc2
              rw [← hc2]
              simp [h0]
            · rw [if_neg h1] at hc
              exact absurd hc (by simp)
        rw [ha, List.length_cons, List.range'_succ, List.map_cons, ← hp2,
          ih ps (i + 1) qs qa (by rw [hg])]

/-- C9: a transient write-API error on a chunk is retried exactly once (a
clean first attempt makes one write, a failed first attempt and clean retry
make two, two failures propagate the error to the caller); a completed run
records per chunk exactly 2 attempts when the first attempt failed and 1
otherwise — never more than two; and a double failure on the first chunk
aborts the whole batched insert. -/
theorem insert_rows_batched_retry_spec :
    (∀ (s : Sheet) (c : List (List Str)) (f : Nat → Bool),
      (f 0 = false →
        insert_chunk s c f = Except.ok (insert_rows_at s c INSERT_AT_ROW, 1)) ∧
      (f 0 = true → f 1 = false →
        insert_chunk s c f = Except.ok (insert_rows_at s c INSERT_AT_ROW, 2)) ∧
      (f 0 = true → f 1 = true → insert_chunk s c f = Except.error ())) ∧
    (∀ (fails : Nat → Nat → Bool) (s : Sheet) (rows : List (List Str))
        (bs : Nat) (s' : Sheet) (a : List Nat),
      insert_rows_batched s rows bs fails = Except.ok (s', a) →
      a = (List.range (chunksOf bs rows).length).map
        (fun j => if fails j 0 then 2 else 1)) ∧
    (∀ (fails : Nat → Nat → Bool) (s : Sheet) (rows : List (List Str))
        (bs : Nat) (s' : Sheet) (a : List Nat),
      insert_rows_batched s rows bs fails = Except.ok (s', a) →
      ∀ n ∈ a, n ≤ 2) ∧
    (∀ (fails : Nat → Nat → Bool) (s : Sheet) (rows : List (List Str))
        (bs : Nat),
      chunksOf bs rows ≠ [] → fails 0 0 = true → fails 0 1 = true →
      insert_rows_batched s rows bs fails = Except.error ()) := by
  have hok : ∀ (fails : Nat → Nat → Bool) (s : Sheet) (rows : List (List Str))
      (bs : Nat) (s' : Sheet) (a : List Nat),
      insert_rows_batched s rows bs fails = Except.ok (s', a) →
      a = (List.range (chunksOf bs rows).length).map
        (fun j => if fails j 0 then 2 else 1) := by
    intro fails s rows bs s' a h
    have := insert_rows_batched_go_ok fails (chunksOf bs rows) s 0 s' a h
    rwa [← List.range_eq_range'] at this
  refine ⟨?_, hok, ?_, ?_⟩
  · intro s c f
    refine ⟨fun h0 => ?_, fun h0 h1 => ?_, fun h0 h1 => ?_⟩
    · unfold insert_chunk
      rw [if_pos h0]
    · unfold insert_chunk
      rw [if_neg (by rw [h0]; simp), if_pos h1]
    · unfold insert_chunk
      rw [if_neg (by rw [h0]; simp), if_neg (by rw [h1]; simp)]
  · intro fails s rows bs s' a h n hn
    rw [hok fails s rows bs s' a h] at hn
    obtain ⟨j, _, rfl⟩ := List.mem_map.mp hn
    split
    · exact le_refl 2
    · omega
  · intro fails s rows bs hne h0 h1
    unfold insert_rows_batched
    rcases hch : chunksOf bs rows with _ | ⟨c, cs⟩
    · exact absurd hch hne
    · unfold insert_rows_batched_go
      have : insert_chunk s c (fails 0) = Except.error () := by
        unfold insert_chunk
        rw [if_neg (by rw [h0]; simp), if_neg (by rw [h1]; simp)]
      rw [this]

/-- Witness for C9 at concrete oracles: a clean first attempt, a double
failure, and a completed empty batch. -/
theorem insert_rows_batched_retry_spec_witness :
    insert_chunk [] [[str "a"]] (fun _ => false)
        = Except.ok (insert_rows_at [] [[str "a"]] INSERT_AT_ROW, 1) ∧
    insert_chunk [] [[str "a"]] (fun _ => true) = Except.error () ∧
    ([] : List Nat) = (List.range (chunksOf 200 ([] : List (List Str))).length).map
        (fun j => if (fun _ _ : Nat => false) j 0 then 2 else 1) :=
  ⟨(insert_rows_batched_retry_spec.1 [] [[str "a"]] (fun _ => false)).1 rfl,
   (insert_rows_batched_retry_spec.1 [] [[str "a"]] (fun _ => true)).2.2 rfl rfl,
   insert_rows_batched_retry_spec.2.1 (fun _ _ => false) [] [] 200 [] []
     (by rw [insert_rows_batched, chunksOf]; rfl)⟩

end PesqEle
